import Mathlib

/-!
Verification development for the asynchronous reconstruction execution queue
of ptychodus (src/ptychodus/model/reconstructor/queue.py).

The Python module is embedded shallowly:

* A product repository item (the shared mutable target entity) is a record
  with a display name and an abstract payload; the store of all entities is
  a function from opaque handles (Nat) to an optional product, where a
  missing entry models an invalid handle, on which the entity methods raise.
* ExecuteReconstructorTask.execute calls the external reconstructor; that
  call either returns a ReconstructOutput or raises, which we model by an
  Option-valued field captured at task creation time.
* The two queue.Queue channels are lists (head = next item dequeued) paired
  with their unfinished-task counters: Queue.put appends and increments the
  counter, Queue.task_done decrements it, Queue.join waits until it is zero.
* The worker loop body, processResults and stop are translated statement by
  statement; raising Python code is Option/observable-outcome valued.
-/

set_option autoImplicit false

namespace ReconQueue

/-- A product repository item: display name plus abstract reconstruction
payload (the numerical contents are opaque to the queue). -/
structure Product where
  name : String
  data : Nat
deriving DecidableEq, Repr

/-- Result of Reconstructor.reconstruct: a status code and a product payload
(mirrors ReconstructOutput of the reconstructor API). -/
structure ReconstructOutput where
  result : Int
  product : Product
deriving DecidableEq, Repr

/-- The shared entity store: opaque handles to mutable products. A handle
mapped to none is invalid; entity methods raise on it. -/
def Store : Type := Nat → Option Product

/-- ProductRepositoryItem.getName, raising (none) on an invalid handle.
Modelled from the spec: ProductRepositoryItem itself is outside the excerpt;
section 6 gives its contract as getName/setName/assign on the entity. -/
def getName (s : Store) (h : Nat) : Option String :=
  (s h).map Product.name

/-- ProductRepositoryItem.assign: replace the whole entity state (display
name included) with the given product. Modelled from the spec, section 6. -/
def assign (s : Store) (h : Nat) (p : Product) : Option Store :=
  match s h with
  | some _ => some (fun i => if i = h then some p else s i)
  | none => none

/-- ProductRepositoryItem.setName: overwrite only the display name.
Modelled from the spec, section 6. -/
def setName (s : Store) (h : Nat) (n : String) : Option Store :=
  match s h with
  | some q => some (fun i => if i = h then some { q with name := n } else s i)
  | none => none

/-- UpdateProductTask: the FollowUpAction produced by the worker, holding the
reconstruction result and the handle of the target product. -/
structure UpdateProductTask where
  result : ReconstructOutput
  product : Nat
deriving DecidableEq, Repr

/-- UpdateProductTask.execute:
name = product.getName(); product.assign(result.product); product.setName(name).
Returns the updated store, or none when an entity method raises. -/
def UpdateProductTask.execute (t : UpdateProductTask) (s : Store) : Option Store := do
  let name ← getName s t.product
  let s1 ← assign s t.product t.result.product
  setName s1 t.product name

/-- ExecuteReconstructorTask: the Job. The reconstructor and its parameters
are external collaborators; the field stores the outcome of the call
reconstructor.reconstruct(parameters) — some output, or none when it raises. -/
structure ExecuteReconstructorTask where
  product : Nat
  reconstruct : Option ReconstructOutput
deriving DecidableEq, Repr

/-- ExecuteReconstructorTask.execute: run the reconstructor and wrap its
output together with the target handle into an UpdateProductTask; a raising
reconstructor makes execute raise (none). -/
def ExecuteReconstructorTask.execute (t : ExecuteReconstructorTask) :
    Option UpdateProductTask :=
  match t.reconstruct with
  | some r => some { result := r, product := t.product }
  | none => none

/-- ReconstructionQueue state: the two FIFOs with their unfinished-task
counters, the stop event, whether the worker thread is alive, and the shared
entity store (mutated only by FollowUpAction application). -/
structure QueueState where
  inputQueue : List ExecuteReconstructorTask
  inputUnfinished : Nat
  outputQueue : List UpdateProductTask
  outputUnfinished : Nat
  stopWorkEvent : Bool
  workerRunning : Bool
  store : Store

/-- ReconstructionQueue.__init__ over a given entity store: empty FIFOs,
stop event clear, worker thread created but not started. -/
def initState (s : Store) : QueueState :=
  { inputQueue := []
    inputUnfinished := 0
    outputQueue := []
    outputUnfinished := 0
    stopWorkEvent := false
    workerRunning := false
    store := s }

/-- ReconstructionQueue.isReconstructing: inputQueue.unfinished_tasks > 0. -/
def isReconstructing (q : QueueState) : Bool :=
  decide (0 < q.inputUnfinished)

/-- ReconstructionQueue.put: build the task and enqueue it on the inbound
FIFO (Queue.put appends and increments unfinished_tasks). The code guards
nothing: put behaves the same whatever the worker state. -/
def put (q : QueueState) (t : ExecuteReconstructorTask) : QueueState :=
  { q with
    inputQueue := q.inputQueue ++ [t]
    inputUnfinished := q.inputUnfinished + 1 }

/-- ReconstructionQueue.start: spawn the worker thread. -/
def start (q : QueueState) : QueueState :=
  { q with workerRunning := true }

/-- One iteration of the worker loop body in _reconstruct: dequeue the next
task if any (an empty queue times out into pass), execute it, push the
output task only when execute did not raise, and mark the inbound item done
in the finally block in either case. -/
def workerStep (q : QueueState) : QueueState :=
  match q.inputQueue with
  | [] => q
  | t :: rest =>
    match t.execute with
    | some outputTask =>
        { q with
          inputQueue := rest
          outputQueue := q.outputQueue ++ [outputTask]
          outputUnfinished := q.outputUnfinished + 1
          inputUnfinished := q.inputUnfinished - 1 }
    | none =>
        { q with
          inputQueue := rest
          inputUnfinished := q.inputUnfinished - 1 }

/-- Iterate the worker loop body a given number of times. -/
def iterWorker : Nat → QueueState → QueueState
  | 0, q => q
  | n + 1, q => iterWorker n (workerStep q)

/-- Run the worker until the inbound FIFO is drained (each step consumes one
queued task, so inputQueue.length steps suffice); this is what
inputQueue.join() waits for. -/
def runWorker (q : QueueState) : QueueState :=
  iterWorker q.inputQueue.length q

/-- The sequence of FollowUpActions the worker pushes onto the outbound FIFO
while consuming the given jobs, in order. -/
def workerOutputs : List ExecuteReconstructorTask → List UpdateProductTask
  | [] => []
  | t :: rest =>
    match t.execute with
    | some outputTask => outputTask :: workerOutputs rest
    | none => workerOutputs rest

/-- Observable outcome of a processResults call: the call returns to the
caller, blocks forever in Queue.get (block=True with no timeout never raises
queue.Empty), or lets an exception from task.execute propagate. Each
outcome carries the store reached, the tasks still on the outbound FIFO, and
the outbound unfinished-task counter. -/
inductive DrainResult where
  | returned (store : Store) (outputQueue : List UpdateProductTask) (outputUnfinished : Nat)
  | blocked (store : Store) (outputQueue : List UpdateProductTask) (outputUnfinished : Nat)
  | raised (store : Store) (outputQueue : List UpdateProductTask) (outputUnfinished : Nat)

/-- Whether a drain call ended by blocking forever inside Queue.get. -/
def DrainResult.isBlocked : DrainResult → Bool
  | .blocked _ _ _ => true
  | _ => false

/-- Whether a drain call ended with an exception propagating to the caller. -/
def DrainResult.isRaised : DrainResult → Bool
  | .raised _ _ _ => true
  | _ => false

/-- ReconstructionQueue.processResults over a snapshot of the outbound FIFO
(no concurrent producer): loop; get the next task — when the FIFO is empty,
get raises queue.Empty and breaks the loop if block is false, and waits
forever if block is true; execute the task, with task_done run in the
finally block even when execute raises, in which case the exception
propagates past the loop. -/
def processResults (block : Bool) : Store → List UpdateProductTask → Nat → DrainResult
  | s, [], u =>
    if block then DrainResult.blocked s [] u else DrainResult.returned s [] u
  | s, t :: rest, u =>
    match t.execute s with
    | some s1 => processResults block s1 rest (u - 1)
    | none => DrainResult.raised s rest (u - 1)

/-- processResults acting on the queue state: write back the store, the
remaining outbound FIFO and its counter, whatever way the call ended. -/
def processResultsState (q : QueueState) (block : Bool) : QueueState :=
  match processResults block q.store q.outputQueue q.outputUnfinished with
  | .returned s rem u => { q with store := s, outputQueue := rem, outputUnfinished := u }
  | .blocked s rem u => { q with store := s, outputQueue := rem, outputUnfinished := u }
  | .raised s rem u => { q with store := s, outputQueue := rem, outputUnfinished := u }

/-- ReconstructionQueue.stop: inputQueue.join() — the worker drains the
inbound FIFO; stopWorkEvent.set(); worker.join() — the loop observes the
event and exits; finally processResults(block=False). -/
def stop (q : QueueState) : QueueState :=
  let q1 := runWorker q
  let q2 := { q1 with stopWorkEvent := true }
  let q3 := { q2 with workerRunning := false }
  processResultsState q3 false

/-- Sequential application of FollowUpActions in list order on the calling
thread; none as soon as one application raises. This is the reference
order-of-application semantics the drain is compared against. -/
def applyAll : Store → List UpdateProductTask → Option Store
  | s, [] => some s
  | s, t :: rest =>
    match t.execute s with
    | some s1 => applyAll s1 rest
    | none => none

/-- Interleaving semantics available to the two threads: the control thread
may submit a job or drain results at any time; the worker thread runs one
loop iteration only while it is alive and the stop event is clear. -/
inductive Step : QueueState → QueueState → Prop where
  | putStep (q : QueueState) (t : ExecuteReconstructorTask) : Step q (put q t)
  | workStep (q : QueueState) :
      q.workerRunning = true → q.stopWorkEvent = false → Step q (workerStep q)
  | drainStep (q : QueueState) (b : Bool) : Step q (processResultsState q b)

/-! ### Helper lemmas about FollowUpAction application -/

/-- Applying an update task succeeds exactly on a valid target handle, and
then replaces the target entity by the reconstructed product with the old
display name, leaving every other handle untouched. -/
lemma UpdateProductTask.execute_some (t : UpdateProductTask) (s : Store)
    (p : Product) (h : s t.product = some p) :
    t.execute s =
      some (fun i => if i = t.product
        then some { t.result.product with name := p.name } else s i) := by
  simp only [UpdateProductTask.execute, getName, assign, setName, h,
    Option.map_some, Option.bind_eq_bind, Option.some_bind, if_pos rfl, if_true]
  refine congrArg some (funext fun i => ?_)
  by_cases hi : i = t.product <;> simp [hi]

/-- Applying an update task on an invalid handle raises. -/
lemma UpdateProductTask.execute_none (t : UpdateProductTask) (s : Store)
    (h : s t.product = none) : t.execute s = none := by
  simp [UpdateProductTask.execute, getName, h]

/-- A successful application leaves every handle other than the target
unchanged. -/
lemma UpdateProductTask.execute_frame (t : UpdateProductTask) (s s' : Store)
    (h : t.execute s = some s') (i : Nat) (hi : i ≠ t.product) : s' i = s i := by
  cases hp : s t.product with
  | none => rw [t.execute_none s hp] at h; cases h
  | some p =>
      rw [t.execute_some s p hp] at h
      cases h
      simp [if_neg hi]

/-- Sequentially applying tasks none of which targets handle i leaves the
entity at i unchanged. -/
lemma applyAll_frame (tasks : List UpdateProductTask) (i : Nat) :
    ∀ s s', (∀ t ∈ tasks, t.product ≠ i) → applyAll s tasks = some s' →
      s' i = s i := by
  induction tasks with
  | nil => intro s s' _ h; cases h; rfl
  | cons t rest ih =>
      intro s s' hnot h
      simp only [applyAll] at h
      cases he : t.execute s with
      | none => rw [he] at h; cases h
      | some s1 =>
          rw [he] at h
          have hrest : s' i = s1 i :=
            ih s1 s' (fun u hu => hnot u (List.mem_cons_of_mem t hu)) h
          have hstep : s1 i = s i :=
            t.execute_frame s s1 he i (fun hc => hnot t (List.mem_cons_self t rest) hc.symm)
          rw [hrest, hstep]

/-- applyAll over an append runs the two halves in sequence. -/
lemma applyAll_append (l1 l2 : List UpdateProductTask) :
    ∀ s, applyAll s (l1 ++ l2) = (applyAll s l1).bind (fun s1 => applyAll s1 l2) := by
  induction l1 with
  | nil => intro s; simp [applyAll]
  | cons t rest ih =>
      intro s
      simp only [List.cons_append, applyAll]
      cases t.execute s with
      | none => simp
      | some s1 => simpa using ih s1

/-! ### Helper lemmas about the drain loop -/

/-- When every queued FollowUpAction applies successfully, processResults
consumes the whole outbound FIFO in order, reaching the sequential
application result; with block=False it then returns, with block=True the
next Queue.get blocks forever. -/
lemma processResults_success (tasks : List UpdateProductTask) :
    ∀ b s s' u, applyAll s tasks = some s' →
      processResults b s tasks u =
        (if b then DrainResult.blocked else DrainResult.returned)
          s' [] (u - tasks.length) := by
  induction tasks with
  | nil =>
      intro b s s' u h
      cases h
      cases b <;> simp [processResults]
  | cons t rest ih =>
      intro b s s' u h
      simp only [applyAll] at h
      cases he : t.execute s with
      | none => rw [he] at h; cases h
      | some s1 =>
          rw [he] at h
          have hrec := ih b s1 s' (u - 1) h
          have harith : u - 1 - rest.length = u - (rest.length + 1) := by omega
          simp only [processResults, he, hrec, List.length_cons, harith]

/-- When the FollowUpActions up to some point apply successfully and the
next one raises, processResults applies the successful prefix, runs
task_done for the raising item, and lets the exception propagate with the
rest of the FIFO still queued. -/
lemma processResults_fail (pre : List UpdateProductTask)
    (bad : UpdateProductTask) (post : List UpdateProductTask) :
    ∀ b s s' u, applyAll s pre = some s' → bad.execute s' = none →
      processResults b s (pre ++ bad :: post) u =
        DrainResult.raised s' post (u - (pre.length + 1)) := by
  induction pre with
  | nil =>
      intro b s s' u hpre hbad
      cases hpre
      simp [processResults, hbad]
  | cons t rest ih =>
      intro b s s' u hpre hbad
      simp only [applyAll] at hpre
      cases he : t.execute s with
      | none => rw [he] at hpre; cases hpre
      | some s1 =>
          rw [he] at hpre
          have hrec := ih b s1 s' (u - 1) hpre hbad
          have harith : u - 1 - (rest.length + 1) = u - (rest.length + 1 + 1) := by
            omega
          simp only [List.cons_append, processResults, he, List.append_eq,
            hrec, List.length_cons, harith]

/-! ### Helper lemmas about the worker loop -/

/-- The outbound FIFO receives exactly the tasks of the jobs whose compute
call returned, in submission order. -/
lemma workerOutputs_eq_filterMap (jobs : List ExecuteReconstructorTask) :
    workerOutputs jobs = jobs.filterMap ExecuteReconstructorTask.execute := by
  induction jobs with
  | nil => rfl
  | cons t rest ih =>
      cases he : t.execute with
      | some outputTask => simp [workerOutputs, he, ih]
      | none => simp [workerOutputs, he, ih]

/-- Worker outputs of concatenated job lists concatenate. -/
lemma workerOutputs_append (l1 l2 : List ExecuteReconstructorTask) :
    workerOutputs (l1 ++ l2) = workerOutputs l1 ++ workerOutputs l2 := by
  simp [workerOutputs_eq_filterMap]

/-- Every pushed FollowUpAction targets the handle of one of the jobs. -/
lemma workerOutputs_targets (jobs : List ExecuteReconstructorTask)
    (t : UpdateProductTask) (ht : t ∈ workerOutputs jobs) :
    ∃ j ∈ jobs, t.product = j.product := by
  induction jobs with
  | nil => cases ht
  | cons j rest ih =>
      cases he : j.execute with
      | some outputTask =>
          rw [workerOutputs, he] at ht
          rcases List.mem_cons.mp ht with h | h
          · refine ⟨j, List.mem_cons_self j rest, ?_⟩
            subst h
            unfold ExecuteReconstructorTask.execute at he
            cases hr : j.reconstruct with
            | some r => rw [hr] at he; cases he; rfl
            | none => rw [hr] at he; cases he
          · obtain ⟨j', hj', hp⟩ := ih h
            exact ⟨j', List.mem_cons_of_mem j hj', hp⟩
      | none =>
          rw [workerOutputs, he] at ht
          obtain ⟨j', hj', hp⟩ := ih ht
          exact ⟨j', List.mem_cons_of_mem j hj', hp⟩

/-- Field-by-field effect of running the worker until the inbound FIFO is
drained: every queued job is dequeued, executed and marked done, the
successful outputs are appended to the outbound FIFO in order, and neither
the stop event, the thread state nor the entity store is touched. -/
lemma runWorker_fields (q : QueueState) :
    (runWorker q).inputQueue = []
    ∧ (runWorker q).inputUnfinished = q.inputUnfinished - q.inputQueue.length
    ∧ (runWorker q).outputQueue = q.outputQueue ++ workerOutputs q.inputQueue
    ∧ (runWorker q).outputUnfinished
        = q.outputUnfinished + (workerOutputs q.inputQueue).length
    ∧ (runWorker q).stopWorkEvent = q.stopWorkEvent
    ∧ (runWorker q).workerRunning = q.workerRunning
    ∧ (runWorker q).store = q.store := by
  suffices h : ∀ (l : List ExecuteReconstructorTask) (q : QueueState),
      q.inputQueue = l →
      (iterWorker l.length q).inputQueue = []
      ∧ (iterWorker l.length q).inputUnfinished = q.inputUnfinished - l.length
      ∧ (iterWorker l.length q).outputQueue = q.outputQueue ++ workerOutputs l
      ∧ (iterWorker l.length q).outputUnfinished
          = q.outputUnfinished + (workerOutputs l).length
      ∧ (iterWorker l.length q).stopWorkEvent = q.stopWorkEvent
      ∧ (iterWorker l.length q).workerRunning = q.workerRunning
      ∧ (iterWorker l.length q).store = q.store by
    simpa [runWorker] using h q.inputQueue q rfl
  intro l
  induction l with
  | nil =>
      intro q hq
      simp [iterWorker, workerOutputs, hq]
  | cons t rest ih =>
      intro q hq
      have hstep : iterWorker (t :: rest).length q
          = iterWorker rest.length (workerStep q) := by
        simp [iterWorker, List.length_cons]
      cases he : t.execute with
      | some outputTask =>
          have hw : workerStep q =
              { q with
                inputQueue := rest
                outputQueue := q.outputQueue ++ [outputTask]
                outputUnfinished := q.outputUnfinished + 1
                inputUnfinished := q.inputUnfinished - 1 } := by
            simp [workerStep, hq, he]
          obtain ⟨h1, h2, h3, h4, h5, h6, h7⟩ := ih (workerStep q) (by rw [hw])
          rw [hstep]
          refine ⟨h1, ?_, ?_, ?_, ?_, ?_, ?_⟩
      -- the six remaining fields follow from the inductive hypothesis and
      -- the single-step effect, modulo list and arithmetic normalization
          · rw [h2, hw]; simp [List.length_cons]; omega
          · rw [h3, hw]; simp [workerOutputs, he]
          · rw [h4, hw]; simp [workerOutputs, he]; omega
          · rw [h5, hw]
          · rw [h6, hw]
          · rw [h7, hw]
      | none =>
          have hw : workerStep q =
              { q with
                inputQueue := rest
                inputUnfinished := q.inputUnfinished - 1 } := by
            simp [workerStep, hq, he]
          obtain ⟨h1, h2, h3, h4, h5, h6, h7⟩ := ih (workerStep q) (by rw [hw])
          rw [hstep]
          refine ⟨h1, ?_, ?_, ?_, ?_, ?_, ?_⟩
          · rw [h2, hw]; simp [List.length_cons]; omega
          · rw [h3, hw]; simp [workerOutputs, he]
          · rw [h4, hw]; simp [workerOutputs, he]
          · rw [h5, hw]
          · rw [h6, hw]
          · rw [h7, hw]

/-- Submit a list of jobs one by one. -/
def putAll (q : QueueState) : List ExecuteReconstructorTask → QueueState
  | [] => q
  | t :: rest => putAll (put q t) rest

/-- Submitting a list of jobs appends them to the inbound FIFO in submission
order and counts each one as unfinished; nothing else changes. -/
lemma putAll_fields (jobs : List ExecuteReconstructorTask) :
    ∀ q : QueueState,
      (putAll q jobs).inputQueue = q.inputQueue ++ jobs
      ∧ (putAll q jobs).inputUnfinished = q.inputUnfinished + jobs.length
      ∧ (putAll q jobs).outputQueue = q.outputQueue
      ∧ (putAll q jobs).outputUnfinished = q.outputUnfinished
      ∧ (putAll q jobs).stopWorkEvent = q.stopWorkEvent
      ∧ (putAll q jobs).workerRunning = q.workerRunning
      ∧ (putAll q jobs).store = q.store := by
  induction jobs with
  | nil => intro q; simp [putAll]
  | cons t rest ih =>
      intro q
      obtain ⟨h1, h2, h3, h4, h5, h6, h7⟩ := ih (put q t)
      have hp : putAll q (t :: rest) = putAll (put q t) rest := rfl
      refine ⟨?_, ?_, ?_, ?_, ?_, ?_, ?_⟩
      · rw [hp, h1]; simp [put]
      · rw [hp, h2]; simp [put, List.length_cons]; omega
      · rw [hp, h3]; rfl
      · rw [hp, h4]; rfl
      · rw [hp, h5]; rfl
      · rw [hp, h6]; rfl
      · rw [hp, h7]; rfl

/-- A drain call leaves the inbound FIFO, its counter, the stop event and
the worker thread state untouched, whichever way it ends. -/
lemma processResultsState_fields (q : QueueState) (b : Bool) :
    (processResultsState q b).inputQueue = q.inputQueue
    ∧ (processResultsState q b).inputUnfinished = q.inputUnfinished
    ∧ (processResultsState q b).stopWorkEvent = q.stopWorkEvent
    ∧ (processResultsState q b).workerRunning = q.workerRunning := by
  unfold processResultsState
  cases processResults b q.store q.outputQueue q.outputUnfinished <;>
    exact ⟨rfl, rfl, rfl, rfl⟩

/-- Once the worker thread is dead, no interleaved step can revive it,
decrease the outstanding-work count, or remove a job from the inbound FIFO. -/
lemma step_dead_worker (q q' : QueueState) (hs : Step q q')
    (hd : q.workerRunning = false) :
    q'.workerRunning = false
    ∧ q.inputUnfinished ≤ q'.inputUnfinished
    ∧ ∀ t ∈ q.inputQueue, t ∈ q'.inputQueue := by
  cases hs with
  | putStep t =>
      exact ⟨hd, Nat.le_succ _, fun u hu => List.mem_append_left [t] hu⟩
  | workStep hrun hstop => rw [hrun] at hd; cases hd
  | drainStep b =>
      obtain ⟨h1, h2, _, h4⟩ := processResultsState_fields q b
      exact ⟨h4.trans hd, h2.ge, fun u hu => h1.symm ▸ hu⟩

/-- Along any interleaving that starts with a dead worker, the worker stays
dead, the outstanding-work count never decreases, and queued jobs stay
queued. -/
lemma trace_dead_worker (q q' : QueueState)
    (htr : Relation.ReflTransGen Step q q') (hd : q.workerRunning = false) :
    q'.workerRunning = false
    ∧ q.inputUnfinished ≤ q'.inputUnfinished
    ∧ ∀ t ∈ q.inputQueue, t ∈ q'.inputQueue := by
  induction htr with
  | refl => exact ⟨hd, le_refl _, fun _ hu => hu⟩
  | tail _ hstep ih =>
      obtain ⟨ih1, ih2, ih3⟩ := ih
      obtain ⟨h1, h2, h3⟩ := step_dead_worker _ _ hstep ih1
      exact ⟨h1, ih2.trans h2, fun u hu => h3 u (ih3 u hu)⟩

/-- Write-back form of a drain that returned. -/
lemma processResultsState_returned (q : QueueState) (b : Bool) (s' : Store)
    (rem : List UpdateProductTask) (u : Nat)
    (h : processResults b q.store q.outputQueue q.outputUnfinished
          = DrainResult.returned s' rem u) :
    processResultsState q b
      = { q with store := s', outputQueue := rem, outputUnfinished := u } := by
  unfold processResultsState
  rw [h]

/-- A drain over a fully applicable outbound FIFO empties it and reaches the
sequential application result, whichever blocking mode is used. -/
lemma processResultsState_success (q : QueueState) (b : Bool) (s' : Store)
    (h : applyAll q.store q.outputQueue = some s')
    (hu : q.outputUnfinished = q.outputQueue.length) :
    processResultsState q b
      = { q with store := s', outputQueue := [], outputUnfinished := 0 } := by
  have hp := processResults_success q.outputQueue b q.store s' q.outputUnfinished h
  unfold processResultsState
  rw [hp]
  cases b <;> simp [hu]

/-! ### Concrete data used by the witnesses -/

/-- A concrete entity store with three valid handles 0, 1, 2. -/
def demoStore : Store := fun i =>
  if i = 0 then some { name := "alpha", data := 10 }
  else if i = 1 then some { name := "beta", data := 20 }
  else if i = 2 then some { name := "gamma", data := 30 }
  else none

/-- A job whose reconstructor call succeeds, targeting handle 0. -/
def jobA : ExecuteReconstructorTask :=
  { product := 0
    reconstruct := some { result := 0, product := { name := "raw", data := 100 } } }

/-- A job whose reconstructor call raises, targeting handle 1. -/
def jobB : ExecuteReconstructorTask :=
  { product := 1, reconstruct := none }

/-- A job whose reconstructor call succeeds, targeting handle 2. -/
def jobC : ExecuteReconstructorTask :=
  { product := 2
    reconstruct := some { result := 0, product := { name := "raw2", data := 300 } } }

/-- A FollowUpAction for handle 0 carrying a successful result. -/
def taskA : UpdateProductTask :=
  { result := { result := 0, product := { name := "raw", data := 100 } }
    product := 0 }

/-- A FollowUpAction for handle 2 carrying a successful result. -/
def taskC : UpdateProductTask :=
  { result := { result := 0, product := { name := "raw2", data := 300 } }
    product := 2 }

/-- A FollowUpAction whose target handle 7 is invalid in demoStore, so its
application raises. -/
def badTask : UpdateProductTask :=
  { result := { result := -1, product := { name := "bad", data := 0 } }
    product := 7 }

/-! ### Claim theorems -/

/-- Claim C6: applying a successful FollowUpAction (UpdateProductTask.execute)
assigns the compute result's state to the target entity while leaving the
entity's display name equal to its previous name n — the externally-assigned
name is never discarded, even though the result carries no name information;
every other entity is untouched. -/
theorem C6_name_preserved (t : UpdateProductTask) (s : Store) (p : Product)
    (h : s t.product = some p) :
    ∃ s', t.execute s = some s'
      ∧ s' t.product = some { name := p.name, data := t.result.product.data }
      ∧ ∀ i, i ≠ t.product → s' i = s i := by
  refine ⟨_, t.execute_some s p h, ?_, ?_⟩
  · simp
  · intro i hi
    simp [if_neg hi]

/-- Witness for C6: applying taskA to demoStore keeps the name alpha of the
entity at handle 0 while its data becomes the reconstructed 100. -/
theorem C6_name_preserved_witness :
    ∃ s', taskA.execute demoStore = some s'
      ∧ s' taskA.product
          = some { name := Product.name { name := "alpha", data := 10 }
                   data := taskA.result.product.data }
      ∧ ∀ i, i ≠ taskA.product → s' i = demoStore i :=
  C6_name_preserved taskA demoStore { name := "alpha", data := 10 } rfl

/-- Claim C7: isReconstructing is true immediately after put returns, stays
true while the submitted Job is still queued, and the outstanding-work count
is decremented by the worker exactly when the Job at the head is processed —
by one, whether its compute call succeeds or raises. -/
theorem C7_isBusy (q : QueueState) (t j : ExecuteReconstructorTask)
    (rest : List ExecuteReconstructorTask)
    (hinv : q.inputUnfinished = q.inputQueue.length)
    (hmem : j ∈ q.inputQueue) (hq : q.inputQueue = t :: rest) :
    (∀ (p : QueueState) (u : ExecuteReconstructorTask),
        isReconstructing (put p u) = true)
    ∧ isReconstructing q = true
    ∧ (workerStep q).inputUnfinished = q.inputUnfinished - 1
    ∧ (workerStep q).inputQueue = rest := by
  refine ⟨?_, ?_, ?_, ?_⟩
  · intro p u
    simp [isReconstructing, put]
  · have hlen : 0 < q.inputQueue.length := List.length_pos_of_mem hmem
    simp only [isReconstructing, hinv, decide_eq_true_eq]
    exact hlen
  · cases he : t.execute <;> simp [workerStep, hq, he]
  · cases he : t.execute <;> simp [workerStep, hq, he]

/-- Witness for C7 at a queue holding only the raising job jobB. -/
theorem C7_isBusy_witness :
    (∀ (p : QueueState) (u : ExecuteReconstructorTask),
        isReconstructing (put p u) = true)
    ∧ isReconstructing (put (start (initState demoStore)) jobB) = true
    ∧ (workerStep (put (start (initState demoStore)) jobB)).inputUnfinished
        = (put (start (initState demoStore)) jobB).inputUnfinished - 1
    ∧ (workerStep (put (start (initState demoStore)) jobB)).inputQueue = [] :=
  C7_isBusy (put (start (initState demoStore)) jobB) jobB jobB [] rfl
    (List.mem_cons_self jobB []) rfl

/-- Claim C8: an exception raised by a FollowUpAction's apply step during
processResults is not caught by the queue: the drain ends with the exception
propagating to the calling control thread. -/
theorem C8_apply_failure_propagates (pre post : List UpdateProductTask)
    (bad : UpdateProductTask) (b : Bool) (s s' : Store) (u : Nat)
    (hpre : applyAll s pre = some s') (hbad : bad.execute s' = none) :
    (processResults b s (pre ++ bad :: post) u).isRaised = true := by
  rw [processResults_fail pre bad post b s s' u hpre hbad]
  rfl

/-- Witness for C8: draining an outbound FIFO whose first item targets the
invalid handle of badTask ends with the exception propagating. -/
theorem C8_apply_failure_propagates_witness :
    (processResults false demoStore ([] ++ badTask :: []) 1).isRaised = true :=
  C8_apply_failure_propagates [] [] badTask false demoStore demoStore 1 rfl rfl

/-- Claim C10: when an apply step raises during processResults, the failed
item has already been removed from the outbound FIFO and marked done in the
finally block before the exception propagates, and every FollowUpAction
queued behind it stays on the FIFO unapplied — the drain stops at the first
failure without discarding the remaining results, and the outbound
unfinished-task counter ends equal to the number of remaining items. -/
theorem C10_apply_failure_bookkeeping (pre post : List UpdateProductTask)
    (bad : UpdateProductTask) (b : Bool) (s s' : Store) (u : Nat)
    (hpre : applyAll s pre = some s') (hbad : bad.execute s' = none) :
    processResults b s (pre ++ bad :: post) u
        = DrainResult.raised s' post (u - (pre.length + 1))
    ∧ (u = (pre ++ bad :: post).length → u - (pre.length + 1) = post.length) := by
  refine ⟨processResults_fail pre bad post b s s' u hpre hbad, ?_⟩
  intro hu
  subst hu
  simp only [List.length_append, List.length_cons]
  omega

/-- Witness for C10: a three-item FIFO taskA, badTask, taskC fails on the
second item; taskC remains queued and the counter drops to one. -/
theorem C10_apply_failure_bookkeeping_witness :
    processResults false demoStore ([taskA] ++ badTask :: [taskC]) 3
        = DrainResult.raised
            ((applyAll demoStore [taskA]).get rfl) [taskC] (3 - ([taskA].length + 1))
    ∧ (3 = ([taskA] ++ badTask :: [taskC]).length →
        3 - ([taskA].length + 1) = [taskC].length) :=
  C10_apply_failure_bookkeeping [taskA] [taskC] badTask false demoStore
    ((applyAll demoStore [taskA]).get rfl) 3 rfl rfl

/-- Claim C3 counterexample: the claim says the worker pushes exactly one
FollowUpAction for every dequeued Job, including a raising one. Dequeuing
the raising job jobB pushes nothing: the outbound FIFO stays empty, so its
length is not 1. In the source, outputQueue.put sits in the else branch of
the try/except and is skipped on an exception. -/
theorem C3_counterexample :
    ¬ ((workerStep (put (start (initState demoStore)) jobB)).outputQueue.length
        = 1) := by
  decide

/-- Claim C3 (amended): for every dequeued Job the worker pushes exactly one
FollowUpAction when the compute call returns and none when it raises; in
both cases the inbound item is marked done in the finally block, so the
inbound accounting used by isReconstructing never loses a raising Job. -/
theorem C3_worker_push (q : QueueState) (t : ExecuteReconstructorTask)
    (rest : List ExecuteReconstructorTask) (hq : q.inputQueue = t :: rest) :
    (workerStep q).outputQueue = q.outputQueue ++ t.execute.toList
    ∧ (t.execute.isSome = true →
        (workerStep q).outputQueue.length = q.outputQueue.length + 1)
    ∧ (t.execute = none → (workerStep q).outputQueue = q.outputQueue)
    ∧ (workerStep q).inputUnfinished = q.inputUnfinished - 1 := by
  cases he : t.execute with
  | some outputTask =>
      refine ⟨?_, ?_, ?_, ?_⟩ <;> simp [workerStep, hq, he, Option.toList]
  | none =>
      refine ⟨?_, ?_, ?_, ?_⟩ <;> simp [workerStep, hq, he, Option.toList]

/-- Witness for the amended C3 at a queue holding only the successful job
jobA. -/
theorem C3_worker_push_witness :
    (workerStep (put (start (initState demoStore)) jobA)).outputQueue
        = (put (start (initState demoStore)) jobA).outputQueue
            ++ jobA.execute.toList
    ∧ (jobA.execute.isSome = true →
        (workerStep (put (start (initState demoStore)) jobA)).outputQueue.length
          = (put (start (initState demoStore)) jobA).outputQueue.length + 1)
    ∧ (jobA.execute = none →
        (workerStep (put (start (initState demoStore)) jobA)).outputQueue
          = (put (start (initState demoStore)) jobA).outputQueue)
    ∧ (workerStep (put (start (initState demoStore)) jobA)).inputUnfinished
        = (put (start (initState demoStore)) jobA).inputUnfinished - 1 :=
  C3_worker_push (put (start (initState demoStore)) jobA) jobA [] rfl

/-- Claim C4 counterexample: the claim says every processResults call with
block=true returns after applying the available FollowUpActions. With one
applicable item queued, the blocking drain applies it and then waits forever
inside Queue.get — get with block=True and no timeout never raises
queue.Empty — so the call never returns. -/
theorem C4_counterexample :
    (processResults true demoStore [taskA] 1).isBlocked = true := by
  rfl

/-- Claim C4 (amended): with block=false, processResults applies every
available FollowUpAction in order and then returns, immediately when the
outbound FIFO is empty; with block=true it applies every available
FollowUpAction and then blocks forever in the next Queue.get, never
returning to the caller while no further result arrives. -/
theorem C4_drain_modes (tasks : List UpdateProductTask) (s : Store) (u : Nat)
    (h : (applyAll s tasks).isSome = true) :
    processResults false s tasks u
        = DrainResult.returned ((applyAll s tasks).get h) [] (u - tasks.length)
    ∧ processResults true s tasks u
        = DrainResult.blocked ((applyAll s tasks).get h) [] (u - tasks.length) := by
  have hs : applyAll s tasks = some ((applyAll s tasks).get h) :=
    (Option.some_get h).symm
  constructor
  · simpa using processResults_success tasks false s _ u hs
  · simpa using processResults_success tasks true s _ u hs

/-- Witness for the amended C4 on a one-item outbound FIFO. -/
theorem C4_drain_modes_witness :
    processResults false demoStore [taskA] 1
        = DrainResult.returned
            ((applyAll demoStore [taskA]).get rfl) [] (1 - [taskA].length)
    ∧ processResults true demoStore [taskA] 1
        = DrainResult.blocked
            ((applyAll demoStore [taskA]).get rfl) [] (1 - [taskA].length) :=
  C4_drain_modes [taskA] demoStore 1 rfl

/-- Claim C9: put called while the worker thread is not running (before
start, or after stop has returned) raises no error: the Job is silently
enqueued on the inbound FIFO and counted as outstanding, no interleaved
step can ever execute it or revive the worker, so it stays queued and
isReconstructing reports true forever. -/
theorem C9_put_after_stop (q : QueueState) (t : ExecuteReconstructorTask)
    (hdead : q.workerRunning = false) :
    isReconstructing (put q t) = true
    ∧ t ∈ (put q t).inputQueue
    ∧ ∀ q', Relation.ReflTransGen Step (put q t) q' →
        isReconstructing q' = true ∧ t ∈ q'.inputQueue
          ∧ q'.workerRunning = false := by
  refine ⟨?_, ?_, ?_⟩
  · simp [isReconstructing, put]
  · simp [put]
  · intro q' htr
    have hd : (put q t).workerRunning = false := hdead
    obtain ⟨h1, h2, h3⟩ := trace_dead_worker (put q t) q' htr hd
    refine ⟨?_, h3 t (by simp [put]), h1⟩
    have hpos : 0 < (put q t).inputUnfinished := Nat.succ_pos _
    have := Nat.lt_of_lt_of_le hpos h2
    simp only [isReconstructing, decide_eq_true_eq]
    exact this

/-- Witness for C9: submitting jobA right after stop has returned on a fresh
started queue leaves the system busy forever; the empty trace instantiates
the quantifier. -/
theorem C9_put_after_stop_witness :
    isReconstructing (put (stop (start (initState demoStore))) jobA) = true
    ∧ jobA ∈ (put (stop (start (initState demoStore))) jobA).inputQueue
    ∧ ∀ q', Relation.ReflTransGen Step
          (put (stop (start (initState demoStore))) jobA) q' →
        isReconstructing q' = true ∧ jobA ∈ q'.inputQueue
          ∧ q'.workerRunning = false :=
  C9_put_after_stop (stop (start (initState demoStore))) jobA rfl

/-- Claim C1: FollowUpActions are applied in submission order. The worker
consumes the inbound FIFO in order and pushes each produced FollowUpAction
before dequeuing the next Job, so after submitting the jobs and running the
worker the outbound FIFO holds exactly the produced FollowUpActions in
submission order (filterMap keeps the submission order), and the drain
applies them sequentially in that order — applyAll is application in
submission order — emptying the FIFO. -/
theorem C1_fifo_order (jobs : List ExecuteReconstructorTask) (s : Store)
    (h : (applyAll s (workerOutputs jobs)).isSome = true) :
    workerOutputs jobs = jobs.filterMap ExecuteReconstructorTask.execute
    ∧ (runWorker (putAll (start (initState s)) jobs)).outputQueue
        = workerOutputs jobs
    ∧ (processResultsState (runWorker (putAll (start (initState s)) jobs))
          false).store
        = (applyAll s (workerOutputs jobs)).get h
    ∧ (processResultsState (runWorker (putAll (start (initState s)) jobs))
          false).outputQueue = [] := by
  obtain ⟨p1, p2, p3, p4, p5, p6, p7⟩ := putAll_fields jobs (start (initState s))
  obtain ⟨r1, r2, r3, r4, r5, r6, r7⟩ :=
    runWorker_fields (putAll (start (initState s)) jobs)
  have hin : (putAll (start (initState s)) jobs).inputQueue = jobs := by
    simpa [start, initState] using p1
  have houtQ : (putAll (start (initState s)) jobs).outputQueue = [] := by
    simpa [start, initState] using p3
  have houtU : (putAll (start (initState s)) jobs).outputUnfinished = 0 := by
    simpa [start, initState] using p4
  have hstore : (putAll (start (initState s)) jobs).store = s := by
    simpa [start, initState] using p7
  rw [houtQ, hin] at r3
  rw [houtU, hin] at r4
  rw [hstore] at r7
  simp only [List.nil_append] at r3
  simp only [Nat.zero_add] at r4
  have happ : applyAll (runWorker (putAll (start (initState s)) jobs)).store
      (runWorker (putAll (start (initState s)) jobs)).outputQueue
      = some ((applyAll s (workerOutputs jobs)).get h) := by
    rw [r7, r3]
    exact (Option.some_get h).symm
  have hu : (runWorker (putAll (start (initState s)) jobs)).outputUnfinished
      = (runWorker (putAll (start (initState s)) jobs)).outputQueue.length := by
    rw [r4, r3]
  have hdrain := processResultsState_success
    (runWorker (putAll (start (initState s)) jobs)) false
    ((applyAll s (workerOutputs jobs)).get h) happ hu
  refine ⟨workerOutputs_eq_filterMap jobs, r3, ?_, ?_⟩
  · rw [hdrain]
  · rw [hdrain]

/-- Witness for C1 with three submitted jobs, the middle one raising. -/
theorem C1_fifo_order_witness :
    workerOutputs [jobA, jobB, jobC]
        = [jobA, jobB, jobC].filterMap ExecuteReconstructorTask.execute
    ∧ (runWorker (putAll (start (initState demoStore)) [jobA, jobB, jobC])).outputQueue
        = workerOutputs [jobA, jobB, jobC]
    ∧ (processResultsState
          (runWorker (putAll (start (initState demoStore)) [jobA, jobB, jobC]))
          false).store
        = (applyAll demoStore (workerOutputs [jobA, jobB, jobC])).get rfl
    ∧ (processResultsState
          (runWorker (putAll (start (initState demoStore)) [jobA, jobB, jobC]))
          false).outputQueue = [] :=
  C1_fifo_order [jobA, jobB, jobC] demoStore rfl

/-- Claim C2: a Job whose compute call raises is caught inside the worker
loop: it produces no FollowUpAction while every other job's FollowUpAction
is still produced, the worker consumes the whole inbound FIFO without its
loop state changing (the exception neither propagates nor stops the loop,
and the worker never touches the entity store), and after all produced
FollowUpActions are applied the raising Job's target entity is unchanged,
provided no other submitted job targets it. -/
theorem C2_compute_failure_isolated (pre post : List ExecuteReconstructorTask)
    (bad : ExecuteReconstructorTask) (s : Store)
    (hbad : bad.reconstruct = none)
    (hothers : ∀ j, j ∈ pre ++ post → j.product ≠ bad.product)
    (h : (applyAll s (workerOutputs (pre ++ bad :: post))).isSome = true) :
    workerOutputs (pre ++ bad :: post) = workerOutputs pre ++ workerOutputs post
    ∧ (∀ q : QueueState, q.inputQueue = pre ++ bad :: post →
        (runWorker q).inputQueue = []
        ∧ (runWorker q).stopWorkEvent = q.stopWorkEvent
        ∧ (runWorker q).workerRunning = q.workerRunning
        ∧ (runWorker q).store = q.store)
    ∧ ((applyAll s (workerOutputs (pre ++ bad :: post))).get h) bad.product
        = s bad.product := by
  have hbe : bad.execute = none := by
    simp [ExecuteReconstructorTask.execute, hbad]
  have hcons : workerOutputs (bad :: post) = workerOutputs post := by
    simp [workerOutputs, hbe]
  have hout : workerOutputs (pre ++ bad :: post)
      = workerOutputs pre ++ workerOutputs post := by
    rw [workerOutputs_append, hcons]
  refine ⟨hout, ?_, ?_⟩
  · intro q _
    obtain ⟨r1, _, _, _, r5, r6, r7⟩ := runWorker_fields q
    exact ⟨r1, r5, r6, r7⟩
  · have hframe : ∀ t ∈ workerOutputs (pre ++ bad :: post),
        t.product ≠ bad.product := by
      intro t ht
      have ht2 : t ∈ workerOutputs (pre ++ post) := by
        rw [workerOutputs_append]
        rw [hout] at ht
        exact ht
      obtain ⟨j, hj, hp⟩ := workerOutputs_targets (pre ++ post) t ht2
      rw [hp]
      exact hothers j hj
    exact applyAll_frame (workerOutputs (pre ++ bad :: post)) bad.product s _
      hframe (Option.some_get h).symm

/-- Witness for C2: jobB raises between the successful jobA and jobC; handle
1 keeps its original entity. -/
theorem C2_compute_failure_isolated_witness :
    workerOutputs ([jobA] ++ jobB :: [jobC])
        = workerOutputs [jobA] ++ workerOutputs [jobC]
    ∧ (∀ q : QueueState, q.inputQueue = [jobA] ++ jobB :: [jobC] →
        (runWorker q).inputQueue = []
        ∧ (runWorker q).stopWorkEvent = q.stopWorkEvent
        ∧ (runWorker q).workerRunning = q.workerRunning
        ∧ (runWorker q).store = q.store)
    ∧ ((applyAll demoStore (workerOutputs ([jobA] ++ jobB :: [jobC]))).get rfl)
          jobB.product
        = demoStore jobB.product :=
  C2_compute_failure_isolated [jobA] [jobC] jobB demoStore rfl (by decide) rfl

/-- Claim C5: called in the Started state with the usual FIFO accounting
invariants and applicable results, stop first has the worker execute every
job submitted before the call, then joins the worker and drains the outbound
FIFO, applying every FollowUpAction; when it returns the inbound FIFO is
empty, isReconstructing is false, the outbound FIFO is empty, the worker
thread has terminated, and the store reflects all applied FollowUpActions. -/
theorem C5_stop_quiescent (q : QueueState)
    (hrun : q.workerRunning = true) (hstop : q.stopWorkEvent = false)
    (hinv : q.inputUnfinished = q.inputQueue.length)
    (houtInv : q.outputUnfinished = q.outputQueue.length)
    (h : (applyAll q.store
        (q.outputQueue ++ workerOutputs q.inputQueue)).isSome = true) :
    (stop q).inputQueue = []
    ∧ isReconstructing (stop q) = false
    ∧ (stop q).outputQueue = []
    ∧ (stop q).workerRunning = false
    ∧ (stop q).stopWorkEvent = true
    ∧ (stop q).store
        = (applyAll q.store (q.outputQueue ++ workerOutputs q.inputQueue)).get h := by
  obtain ⟨r1, r2, r3, r4, r5, r6, r7⟩ := runWorker_fields q
  have hq3 : stop q
      = processResultsState
          { runWorker q with stopWorkEvent := true, workerRunning := false }
          false := rfl
  have happ : applyAll
      ({ runWorker q with stopWorkEvent := true, workerRunning := false } :
        QueueState).store
      ({ runWorker q with stopWorkEvent := true, workerRunning := false } :
        QueueState).outputQueue
      = some ((applyAll q.store
          (q.outputQueue ++ workerOutputs q.inputQueue)).get h) := by
    show applyAll (runWorker q).store (runWorker q).outputQueue = _
    rw [r7, r3]
    exact (Option.some_get h).symm
  have hu : ({ runWorker q with stopWorkEvent := true, workerRunning := false } :
        QueueState).outputUnfinished
      = ({ runWorker q with stopWorkEvent := true, workerRunning := false } :
        QueueState).outputQueue.length := by
    show (runWorker q).outputUnfinished = (runWorker q).outputQueue.length
    rw [r4, r3, houtInv]
    simp [List.length_append]
  have hfin := processResultsState_success
    { runWorker q with stopWorkEvent := true, workerRunning := false } false
    ((applyAll q.store (q.outputQueue ++ workerOutputs q.inputQueue)).get h)
    happ hu
  rw [hq3, hfin]
  have hzero : (runWorker q).inputUnfinished = 0 := by
    rw [r2, hinv]
    omega
  refine ⟨r1, ?_, rfl, rfl, rfl, rfl⟩
  show decide (0 < (runWorker q).inputUnfinished) = false
  rw [hzero]
  rfl

/-- A concrete started queue with three submitted jobs, used by the C5
witness. -/
def demoQueue : QueueState :=
  putAll (start (initState demoStore)) [jobA, jobB, jobC]

/-- Witness for C5 on the concrete three-job queue, the middle job raising. -/
theorem C5_stop_quiescent_witness :
    (stop demoQueue).inputQueue = []
    ∧ isReconstructing (stop demoQueue) = false
    ∧ (stop demoQueue).outputQueue = []
    ∧ (stop demoQueue).workerRunning = false
    ∧ (stop demoQueue).stopWorkEvent = true
    ∧ (stop demoQueue).store
        = (applyAll demoQueue.store
            (demoQueue.outputQueue ++ workerOutputs demoQueue.inputQueue)).get
            rfl :=
  C5_stop_quiescent demoQueue rfl rfl rfl rfl rfl

end ReconQueue
